import Mathlib

/-!
Verification development for the botanical-garden content-management backend.

The repository ships the News API test suite and the `botanical_garden_root`
News model; the News serializers and views of the `botanical-garden-api`
application are not part of the shipped sources, so their behaviour (hashtag
reconciliation, role-gated CRUD, image upload) is modelled from the
specification, guided by the shipped tests.  The `botanical_garden_root`
News model is embedded directly from its source file.
-/

namespace BG

/-- Modelled from the spec: a Hashtag record — unique identifier plus a name
(the serializers and models of the news app are missing from the shipped
sources). Name uniqueness is not enforced. -/
structure Hashtag where
  id : Nat
  name : String
deriving DecidableEq, Repr

/-- Modelled from the spec: a News record — identifier, title, body text
(called `context` in the shipped tests), optional image reference, owning
user reference, and the set of associated hashtag identifiers. -/
structure NewsItem where
  id : Nat
  title : String
  context : String
  image : Option String
  user : Option Nat
  hashtags : List Nat
deriving DecidableEq, Repr

/-- Modelled from the spec: the relational data store backing the news app —
News rows in creation order, Hashtag rows, auto-increment counters, and the
file storage mapping paths to stored bytes. -/
structure Store where
  newsList : List NewsItem
  hashtagRows : List Hashtag
  nextNewsId : Nat
  nextHashtagId : Nat
  files : List (String × List Nat)
deriving DecidableEq, Repr

/-- Modelled from the spec: an incoming JSON payload for create or update;
a field set to `none` is absent from the payload. -/
structure Payload where
  title : Option String
  context : Option String
  hashtags : Option (List String)
deriving DecidableEq, Repr

/-- Modelled from the spec: the caller role — anonymous, or authenticated
with a user id and a manager flag. -/
inductive Caller where
  | anonymous : Caller
  | authenticated (userId : Nat) (isManager : Bool) : Caller
deriving DecidableEq, Repr

/-- Modelled from the spec: the body of an HTTP response. -/
inductive RespBody where
  | empty : RespBody
  | newsListBody (items : List NewsItem) : RespBody
  | newsItemBody (item : NewsItem) : RespBody
  | imageRef (ref : String) : RespBody
  | error (field : String) : RespBody
deriving DecidableEq, Repr

/-- Modelled from the spec: an HTTP response — status code and body. -/
structure Response where
  status : Nat
  body : RespBody
deriving DecidableEq, Repr

/-- Modelled from the spec: the permission gate for mutating operations —
anonymous callers get 401 Unauthorized, authenticated non-manager callers
get 403 Forbidden, managers pass (`none`). -/
def authStatus (c : Caller) : Option Nat :=
  match c with
  | .anonymous => some 401
  | .authenticated _ false => some 403
  | .authenticated _ true => none

/-- Modelled from the spec: look a News row up by id. -/
def itemById (s : Store) (i : Nat) : Option NewsItem :=
  s.newsList.find? (fun x => x.id == i)

/-- Modelled from the spec: adding an association id to a News item's
many-to-many hashtag set is a no-op when already present. -/
def addAssoc (assoc : List Nat) (i : Nat) : List Nat :=
  if i ∈ assoc then assoc else assoc ++ [i]

/-- Modelled from the spec: the hashtag reconciler loop — for each requested
name, look an existing Hashtag up by exact name (get-or-create): reuse it
when found, otherwise create a fresh row; associate the resolved row with
the item.  State carried: next auto-increment id, Hashtag rows, and the
association set being built. -/
def reconcileAux (nextId : Nat) (rows : List Hashtag) (assoc : List Nat) :
    List String → Nat × List Hashtag × List Nat
  | [] => (nextId, rows, assoc)
  | n :: rest =>
    match rows.find? (fun h => h.name == n) with
    | some h => reconcileAux nextId rows (addAssoc assoc h.id) rest
    | none =>
        reconcileAux (nextId + 1) (rows ++ [⟨nextId, n⟩])
          (addAssoc assoc nextId) rest

/-- Modelled from the spec: `reconcile` — the association set is replaced by
exactly the rows resolved from the requested names, starting from a cleared
set. Returns the new auto-increment counter, Hashtag rows, and the item's
new association set. -/
def reconcileCore (nextId : Nat) (rows : List Hashtag) (names : List String) :
    Nat × List Hashtag × List Nat :=
  reconcileAux nextId rows [] names

/-- Modelled from the spec: the name a stored association id resolves to. -/
def hashtagName (rows : List Hashtag) (i : Nat) : Option String :=
  (rows.find? (fun h => h.id == i)).map (fun h => h.name)

/-- Modelled from the spec: the set of hashtag names associated with an
item, obtained by resolving each association id against the Hashtag rows. -/
def assocNames (rows : List Hashtag) (assoc : List Nat) : Finset String :=
  (assoc.filterMap (hashtagName rows)).toFinset

/-- Modelled from the spec: apply the fields present in a payload to a News
row; absent fields, the id, the image and the owning user are untouched. -/
def applyPayload (it : NewsItem) (p : Payload) : NewsItem :=
  { it with
    title := p.title.getD it.title
    context := p.context.getD it.context }

/-- Modelled from the spec: replace the News row bearing the given item's id
with that item, leaving every other row in place. -/
def setItem (l : List NewsItem) (it : NewsItem) : List NewsItem :=
  l.map (fun x => if x.id == it.id then it else x)

/-- Modelled from the spec: `create(payload)` — manager-only; requires title
and body; the owning user is set to the caller; the hashtag reconciler runs
on the supplied names (empty set when the field is absent). -/
def createNews (s : Store) (c : Caller) (p : Payload) : Response × Store :=
  match c with
  | .anonymous => (⟨401, .empty⟩, s)
  | .authenticated _ false => (⟨403, .empty⟩, s)
  | .authenticated uid true =>
    match p.title, p.context with
    | some t, some ctx =>
        let rec1 := reconcileCore s.nextHashtagId s.hashtagRows (p.hashtags.getD [])
        let it : NewsItem := ⟨s.nextNewsId, t, ctx, none, some uid, rec1.2.2⟩
        (⟨201, .newsItemBody it⟩,
          { s with
            newsList := s.newsList ++ [it]
            nextNewsId := s.nextNewsId + 1
            hashtagRows := rec1.2.1
            nextHashtagId := rec1.1 })
    | _, _ => (⟨400, .error "field"⟩, s)

/-- Modelled from the spec: `update(id, payload, partial)` — manager-only;
404 when the id is absent; a full update requires title and body; the
reconciler runs only when the hashtags key is present in the payload. -/
def updateNews (s : Store) (c : Caller) (i : Nat) (p : Payload)
    (isPartial : Bool) : Response × Store :=
  match authStatus c with
  | some code => (⟨code, .empty⟩, s)
  | none =>
    match s.newsList.find? (fun x => x.id == i) with
    | none => (⟨404, .empty⟩, s)
    | some it =>
      if !isPartial && (p.title.isNone || p.context.isNone) then
        (⟨400, .error "field"⟩, s)
      else
        let base := applyPayload it p
        match p.hashtags with
        | none =>
            (⟨200, .newsItemBody base⟩,
              { s with newsList := setItem s.newsList base })
        | some names =>
            let rec1 := reconcileCore s.nextHashtagId s.hashtagRows names
            let it2 : NewsItem := { base with hashtags := rec1.2.2 }
            (⟨200, .newsItemBody it2⟩,
              { s with
                newsList := setItem s.newsList it2
                hashtagRows := rec1.2.1
                nextHashtagId := rec1.1 })

/-- Modelled from the spec: `delete(id)` — manager-only; removes the News
row and its stored image file; Hashtag rows persist. -/
def deleteNews (s : Store) (c : Caller) (i : Nat) : Response × Store :=
  match authStatus c with
  | some code => (⟨code, .empty⟩, s)
  | none =>
    match s.newsList.find? (fun x => x.id == i) with
    | none => (⟨404, .empty⟩, s)
    | some it =>
        let files2 :=
          match it.image with
          | none => s.files
          | some path => s.files.filter (fun kv => !(kv.1 == path))
        (⟨204, .empty⟩,
          { s with
            newsList := s.newsList.filter (fun x => !(x.id == i))
            files := files2 })

/-- Modelled from the spec: `list()` — all News items, newest-first by
creation order, readable by any caller. -/
def listNews (s : Store) (_c : Caller) : Response :=
  ⟨200, .newsListBody s.newsList.reverse⟩

/-- Modelled from the spec: `retrieve(id)` — one News item with full detail,
readable by any caller; 404 when the id is absent. -/
def retrieveNews (s : Store) (_c : Caller) (i : Nat) : Response :=
  match itemById s i with
  | none => ⟨404, .empty⟩
  | some it => ⟨200, .newsItemBody it⟩

/-- Modelled from the spec: the managed file-storage path keyed to a News
item, used for its uploaded image. -/
def imagePath (newsId : Nat) : String :=
  "uploads/news/" ++ toString newsId

/-- Modelled from the spec: look the stored bytes up at a storage path. -/
def fileAt (files : List (String × List Nat)) (p : String) :
    Option (List Nat) :=
  (files.find? (fun kv => kv.1 == p)).map (fun kv => kv.2)

/-- Modelled from the spec: `upload_image(news_item, file_payload)` —
manager-only; 404 when the id is absent; the payload is decoded by the
image library (abstracted as the `dec` predicate).  On success the bytes
are stored under the item's managed path, the previously stored file is
released, the item's image reference is updated, and the new reference is
returned; on failure a validation error naming the image field is returned
and nothing changes. -/
def uploadImage (s : Store) (c : Caller) (i : Nat) (pl : List Nat)
    (dec : List Nat → Bool) : Response × Store :=
  match authStatus c with
  | some code => (⟨code, .empty⟩, s)
  | none =>
    match s.newsList.find? (fun x => x.id == i) with
    | none => (⟨404, .empty⟩, s)
    | some it =>
      if dec pl then
        let path := imagePath i
        let files2 :=
          (s.files.filter (fun kv => !(kv.1 == path || some kv.1 == it.image)))
            ++ [(path, pl)]
        let it2 : NewsItem := { it with image := some path }
        (⟨200, .imageRef path⟩,
          { s with newsList := setItem s.newsList it2, files := files2 })
      else
        (⟨400, .error "image"⟩, s)

/-- Well-formed Hashtag rows: every id is below the auto-increment counter
and ids are pairwise distinct. -/
abbrev WFrows (nextId : Nat) (rows : List Hashtag) : Prop :=
  (∀ h ∈ rows, h.id < nextId) ∧ (rows.map Hashtag.id).Nodup

/-- Well-formed store: News rows are in creation order with ids below the
auto-increment counter, and the Hashtag rows are well formed. -/
abbrev StoreWF (s : Store) : Prop :=
  s.newsList.Pairwise (fun a b => a.id < b.id) ∧
  (∀ x ∈ s.newsList, x.id < s.nextNewsId) ∧
  WFrows s.nextHashtagId s.hashtagRows

/-- Embedded from `src/botanical_garden_root/news/models.py`: the News model
there has a nullable `author` foreign key to `User` declared with
`on_delete=models.CASCADE`. -/
structure RootNews where
  id : Nat
  title : String
  context : String
  preview : Option String
  author : Option Nat
deriving DecidableEq, Repr

/-- Embedded from `src/botanical_garden_root/news/models.py`: CASCADE
semantics of `on_delete` — deleting a user deletes every News row whose
author references that user. -/
def deleteUserCascade (news : List RootNews) (u : Nat) : List RootNews :=
  news.filter (fun n => !(n.author == some u))

end BG

namespace BG

theorem find?_append_some {α : Type} {p : α → Bool} {l1 l2 : List α}
    {a : α} (hf : l1.find? p = some a) : (l1 ++ l2).find? p = some a := by
  rw [List.find?_append, hf]
  rfl

theorem find?_append_none {α : Type} {p : α → Bool} {l1 l2 : List α}
    (hf : l1.find? p = none) : (l1 ++ l2).find? p = l2.find? p := by
  rw [List.find?_append, hf]
  rfl

theorem mem_addAssoc_of_mem {a : List Nat} {i : Nat} (j : Nat)
    (hi : i ∈ a) : i ∈ addAssoc a j := by
  unfold addAssoc
  split
  · exact hi
  · exact List.mem_append_left _ hi

theorem mem_addAssoc_self (a : List Nat) (j : Nat) : j ∈ addAssoc a j := by
  unfold addAssoc
  split
  · assumption
  · simp

theorem of_mem_addAssoc {a : List Nat} {i j : Nat}
    (hi : i ∈ addAssoc a j) : i ∈ a ∨ i = j := by
  unfold addAssoc at hi
  split at hi
  · exact Or.inl hi
  · rcases List.mem_append.mp hi with h | h
    · exact Or.inl h
    · simp at h
      exact Or.inr h

theorem reconcileAux_rows_ext (names : List String) :
    ∀ (n0 : Nat) (r0 : List Hashtag) (a0 : List Nat),
      ∃ ext, (reconcileAux n0 r0 a0 names).2.1 = r0 ++ ext := by
  induction names with
  | nil =>
    intro n0 r0 a0
    exact ⟨[], by simp [reconcileAux]⟩
  | cons n rest ih =>
    intro n0 r0 a0
    cases hf : r0.find? (fun h => h.name == n) with
    | some h =>
      simp only [reconcileAux, hf]
      exact ih n0 r0 (addAssoc a0 h.id)
    | none =>
      simp only [reconcileAux, hf]
      obtain ⟨ext, hext⟩ := ih (n0 + 1) (r0 ++ [⟨n0, n⟩]) (addAssoc a0 n0)
      exact ⟨⟨n0, n⟩ :: ext, by simp [hext]⟩

theorem reconcileAux_idem (names : List String) :
    ∀ (n0 : Nat) (r0 : List Hashtag) (a0 : List Nat),
      reconcileAux (reconcileAux n0 r0 a0 names).1
        (reconcileAux n0 r0 a0 names).2.1 a0 names
        = reconcileAux n0 r0 a0 names := by
  induction names with
  | nil =>
    intro n0 r0 a0
    simp [reconcileAux]
  | cons n rest ih =>
    intro n0 r0 a0
    cases hf : r0.find? (fun h => h.name == n) with
    | some h =>
      simp only [reconcileAux, hf]
      obtain ⟨ext, hext⟩ := reconcileAux_rows_ext rest n0 r0 (addAssoc a0 h.id)
      have hf2 : (reconcileAux n0 r0 (addAssoc a0 h.id) rest).2.1.find?
          (fun x => x.name == n) = some h := by
        rw [hext]
        exact find?_append_some hf
      rw [hf2]
      exact ih n0 r0 (addAssoc a0 h.id)
    | none =>
      simp only [reconcileAux, hf]
      obtain ⟨ext, hext⟩ :=
        reconcileAux_rows_ext rest (n0 + 1) (r0 ++ [⟨n0, n⟩]) (addAssoc a0 n0)
      have hf2 : (reconcileAux (n0 + 1) (r0 ++ [⟨n0, n⟩])
          (addAssoc a0 n0) rest).2.1.find? (fun x => x.name == n)
          = some ⟨n0, n⟩ := by
        rw [hext, List.append_assoc, find?_append_none hf]
        apply find?_append_some
        simp
      rw [hf2]
      exact ih (n0 + 1) (r0 ++ [⟨n0, n⟩]) (addAssoc a0 n0)

theorem reconcileAux_assoc_mono (names : List String) :
    ∀ (n0 : Nat) (r0 : List Hashtag) (a0 : List Nat) (i : Nat), i ∈ a0 →
      i ∈ (reconcileAux n0 r0 a0 names).2.2 := by
  induction names with
  | nil =>
    intro n0 r0 a0 i hi
    simpa [reconcileAux] using hi
  | cons n rest ih =>
    intro n0 r0 a0 i hi
    cases hf : r0.find? (fun h => h.name == n) with
    | some h =>
      simp only [reconcileAux, hf]
      exact ih n0 r0 (addAssoc a0 h.id) i (mem_addAssoc_of_mem h.id hi)
    | none =>
      simp only [reconcileAux, hf]
      exact ih (n0 + 1) (r0 ++ [⟨n0, n⟩]) (addAssoc a0 n0) i
        (mem_addAssoc_of_mem n0 hi)

theorem reconcileAux_covers (names : List String) :
    ∀ (n0 : Nat) (r0 : List Hashtag) (a0 : List Nat) (s : String),
      s ∈ names →
      ∃ h : Hashtag, h ∈ (reconcileAux n0 r0 a0 names).2.1 ∧ h.name = s ∧
        h.id ∈ (reconcileAux n0 r0 a0 names).2.2 := by
  induction names with
  | nil =>
    intro n0 r0 a0 s hs
    exact absurd hs (List.not_mem_nil s)
  | cons n rest ih =>
    intro n0 r0 a0 s hs
    cases hf : r0.find? (fun h => h.name == n) with
    | some h =>
      simp only [reconcileAux, hf]
      rcases List.mem_cons.mp hs with hs | hs
      · refine ⟨h, ?_, ?_, ?_⟩
        · obtain ⟨ext, hext⟩ := reconcileAux_rows_ext rest n0 r0 (addAssoc a0 h.id)
          rw [hext]
          exact List.mem_append_left _ (List.mem_of_find?_eq_some hf)
        · have := List.find?_some hf
          simp at this
          rw [this, hs]
        · exact reconcileAux_assoc_mono rest n0 r0 (addAssoc a0 h.id) h.id
            (mem_addAssoc_self a0 h.id)
      · exact ih n0 r0 (addAssoc a0 h.id) s hs
    | none =>
      simp only [reconcileAux, hf]
      rcases List.mem_cons.mp hs with hs | hs
      · refine ⟨⟨n0, n⟩, ?_, by simpa using hs.symm, ?_⟩
        · obtain ⟨ext, hext⟩ :=
            reconcileAux_rows_ext rest (n0 + 1) (r0 ++ [⟨n0, n⟩]) (addAssoc a0 n0)
          rw [hext]
          exact List.mem_append_left _ (by simp)
        · exact reconcileAux_assoc_mono rest (n0 + 1) (r0 ++ [⟨n0, n⟩])
            (addAssoc a0 n0) n0 (mem_addAssoc_self a0 n0)
      · exact ih (n0 + 1) (r0 ++ [⟨n0, n⟩]) (addAssoc a0 n0) s hs

theorem reconcileAux_source (names : List String) :
    ∀ (n0 : Nat) (r0 : List Hashtag) (a0 : List Nat) (i : Nat),
      i ∈ (reconcileAux n0 r0 a0 names).2.2 →
      i ∈ a0 ∨ ∃ h : Hashtag, h ∈ (reconcileAux n0 r0 a0 names).2.1 ∧
        h.id = i ∧ h.name ∈ names := by
  induction names with
  | nil =>
    intro n0 r0 a0 i hi
    simp only [reconcileAux] at hi
    exact Or.inl hi
  | cons n rest ih =>
    intro n0 r0 a0 i hi
    cases hf : r0.find? (fun h => h.name == n) with
    | some h =>
      simp only [reconcileAux, hf] at hi ⊢
      rcases ih n0 r0 (addAssoc a0 h.id) i hi with hm | ⟨h2, hmem, hid, hname⟩
      · rcases of_mem_addAssoc hm with hm | hm
        · exact Or.inl hm
        · refine Or.inr ⟨h, ?_, hm.symm, ?_⟩
          · obtain ⟨ext, hext⟩ := reconcileAux_rows_ext rest n0 r0 (addAssoc a0 h.id)
            rw [hext]
            exact List.mem_append_left _ (List.mem_of_find?_eq_some hf)
          · have := List.find?_some hf
            simp at this
            rw [this]
            exact List.mem_cons_self n rest
      · exact Or.inr ⟨h2, hmem, hid, List.mem_cons_of_mem n hname⟩
    | none =>
      simp only [reconcileAux, hf] at hi ⊢
      rcases ih (n0 + 1) (r0 ++ [⟨n0, n⟩]) (addAssoc a0 n0) i hi with
        hm | ⟨h2, hmem, hid, hname⟩
      · rcases of_mem_addAssoc hm with hm | hm
        · exact Or.inl hm
        · refine Or.inr ⟨⟨n0, n⟩, ?_, hm.symm, List.mem_cons_self n rest⟩
          obtain ⟨ext, hext⟩ :=
            reconcileAux_rows_ext rest (n0 + 1) (r0 ++ [⟨n0, n⟩]) (addAssoc a0 n0)
          rw [hext]
          exact List.mem_append_left _ (by simp)
      · exact Or.inr ⟨h2, hmem, hid, List.mem_cons_of_mem n hname⟩

end BG

namespace BG

theorem reconcileAux_wf (names : List String) :
    ∀ (n0 : Nat) (r0 : List Hashtag) (a0 : List Nat), WFrows n0 r0 →
      WFrows (reconcileAux n0 r0 a0 names).1 (reconcileAux n0 r0 a0 names).2.1 := by
  induction names with
  | nil =>
    intro n0 r0 a0 hwf
    simpa [reconcileAux] using hwf
  | cons n rest ih =>
    intro n0 r0 a0 hwf
    cases hf : r0.find? (fun h => h.name == n) with
    | some h =>
      simp only [reconcileAux, hf]
      exact ih n0 r0 (addAssoc a0 h.id) hwf
    | none =>
      simp only [reconcileAux, hf]
      refine ih (n0 + 1) (r0 ++ [{ id := n0, name := n }]) (addAssoc a0 n0)
        ⟨?_, ?_⟩
      · intro h hmem
        rcases List.mem_append.mp hmem with hm | hm
        · exact Nat.lt_succ_of_lt (hwf.1 h hm)
        · simp at hm
          rw [hm]
          exact Nat.lt_succ_self n0
      · rw [List.map_append]
        apply List.Nodup.append hwf.2 (by simp)
        intro x hx hy
        simp at hy
        rcases List.mem_map.mp hx with ⟨h, hm, hid⟩
        have := hwf.1 h hm
        omega

theorem find_by_id_of_mem :
    ∀ (rows : List Hashtag), (rows.map Hashtag.id).Nodup →
      ∀ h ∈ rows, rows.find? (fun x => x.id == h.id) = some h := by
  intro rows
  induction rows with
  | nil =>
    intro _ h hm
    exact absurd hm (List.not_mem_nil h)
  | cons r rest ih =>
    intro hnd h hm
    simp only [List.map_cons, List.nodup_cons] at hnd
    rcases List.mem_cons.mp hm with hm | hm
    · rw [hm]
      exact @List.find?_cons_of_pos _ (fun x => x.id == r.id) r rest (by simp)
    · have hne : ¬ ((fun x => x.id == h.id) r = true) := by
        simp only [beq_iff_eq]
        intro he
        exact hnd.1 (he ▸ List.mem_map.mpr ⟨h, hm, rfl⟩)
      rw [@List.find?_cons_of_neg _ (fun x => x.id == h.id) r rest hne]
      exact ih hnd.2 h hm

theorem id_inj_of_nodup {rows : List Hashtag}
    (hnd : (rows.map Hashtag.id).Nodup) {h h2 : Hashtag} (hm : h ∈ rows)
    (hm2 : h2 ∈ rows) (hid : h.id = h2.id) : h = h2 := by
  have e1 := find_by_id_of_mem rows hnd h hm
  have e2 := find_by_id_of_mem rows hnd h2 hm2
  rw [hid] at e1
  rw [e1] at e2
  exact Option.some_injective _ e2

theorem hashtagName_eq_some {rows : List Hashtag} {i : Nat} {s : String} :
    hashtagName rows i = some s ↔
      ∃ h : Hashtag, rows.find? (fun x => x.id == i) = some h ∧ h.name = s := by
  unfold hashtagName
  rw [Option.map_eq_some']

theorem reconcileCore_names (n0 : Nat) (r0 : List Hashtag)
    (names : List String) (hwf : WFrows n0 r0) :
    assocNames (reconcileCore n0 r0 names).2.1
      (reconcileCore n0 r0 names).2.2 = names.toFinset := by
  have hwf2 := reconcileAux_wf names n0 r0 [] hwf
  ext s
  simp only [assocNames, reconcileCore, List.mem_toFinset, List.mem_filterMap,
    hashtagName_eq_some]
  constructor
  · rintro ⟨i, hi, h, hfind, hname⟩
    rcases reconcileAux_source names n0 r0 [] i hi with hm | ⟨h2, hmem, hid, hn⟩
    · exact absurd hm (List.not_mem_nil i)
    · have hhm := List.mem_of_find?_eq_some hfind
      have hhid : h.id = i := by
        have := List.find?_some hfind
        simpa using this
      have heq : h = h2 := id_inj_of_nodup hwf2.2 hhm hmem (by rw [hhid, hid])
      rw [← hname, heq]
      exact hn
  · intro hs
    obtain ⟨h, hmem, hname, hid⟩ := reconcileAux_covers names n0 r0 [] s hs
    exact ⟨h.id, hid, h, find_by_id_of_mem _ hwf2.2 h hmem, hname⟩

theorem reconcileCore_rows_ext (n0 : Nat) (r0 : List Hashtag)
    (names : List String) :
    ∃ ext, (reconcileCore n0 r0 names).2.1 = r0 ++ ext :=
  reconcileAux_rows_ext names n0 r0 []

theorem setItem_find_self {l : List NewsItem} {i : Nat} {it0 it : NewsItem}
    (hfind : l.find? (fun x => x.id == i) = some it0) (hid : it.id = i) :
    (setItem l it).find? (fun x => x.id == i) = some it := by
  induction l with
  | nil => simp [setItem] at hfind
  | cons a rest ih =>
    by_cases ha : (a.id == i) = true
    · have hai : a.id = i := by simpa using ha
      simp only [setItem, List.map_cons]
      rw [if_pos (by simp [hai, hid])]
      exact @List.find?_cons_of_pos _ (fun x => x.id == i) it _ (by simp [hid])
    · have hfind2 : rest.find? (fun x => x.id == i) = some it0 := by
        rw [@List.find?_cons_of_neg _ (fun x => x.id == i) a rest ha] at hfind
        exact hfind
      have hai : ¬ a.id = i := by simpa using ha
      simp only [setItem, List.map_cons]
      rw [if_neg (by simp [hid]; exact hai)]
      rw [@List.find?_cons_of_neg _ (fun x => x.id == i) a _ ha]
      exact ih hfind2

theorem setItem_find_other {l : List NewsItem} {j : Nat} {it : NewsItem}
    (hne : ¬ it.id = j) :
    (setItem l it).find? (fun x => x.id == j) = l.find? (fun x => x.id == j) := by
  induction l with
  | nil => simp [setItem]
  | cons a rest ih =>
    simp only [setItem, List.map_cons] at ih ⊢
    by_cases ha : (a.id == it.id) = true
    · have hai : a.id = it.id := by simpa using ha
      rw [if_pos ha]
      rw [@List.find?_cons_of_neg _ (fun x => x.id == j) it _ (by simp [hne]),
        @List.find?_cons_of_neg _ (fun x => x.id == j) a rest
          (by simp [hai]; exact hne)]
      exact ih
    · rw [if_neg ha]
      by_cases haj : (a.id == j) = true
      · rw [@List.find?_cons_of_pos _ (fun x => x.id == j) a _ haj,
          @List.find?_cons_of_pos _ (fun x => x.id == j) a rest haj]
      · rw [@List.find?_cons_of_neg _ (fun x => x.id == j) a _ haj,
          @List.find?_cons_of_neg _ (fun x => x.id == j) a rest haj]
        exact ih

theorem find?_append_fresh {l : List NewsItem} {i : Nat} {it : NewsItem}
    (hall : ∀ x ∈ l, ¬ x.id = i) (hid : it.id = i) :
    (l ++ [it]).find? (fun x => x.id == i) = some it := by
  rw [find?_append_none, @List.find?_cons_of_pos _ (fun x => x.id == i) it []
    (by simp [hid])]
  apply List.find?_eq_none.mpr
  intro x hx
  simp
  exact hall x hx

end BG

namespace BG

/-- A concrete Hashtag row used to instantiate the claim theorems. -/
def tagOld : Hashtag := { id := 1, name := "#old" }

/-- A concrete News row used to instantiate the claim theorems. -/
def itemOne : NewsItem :=
  { id := 1, title := "T", context := "C", image := some "old.jpg",
    user := some 7, hashtags := [1] }

/-- A concrete well-formed store used to instantiate the claim theorems. -/
def sampleStore : Store :=
  { newsList := [itemOne], hashtagRows := [tagOld], nextNewsId := 2,
    nextHashtagId := 2, files := [("old.jpg", [1, 2])] }

/-- A concrete payload carrying title, body and two hashtag names. -/
def pay1 : Payload :=
  { title := some "t", context := some "c", hashtags := some ["#a", "#old"] }

/-- A concrete payload clearing the hashtag associations. -/
def payEmptyTags : Payload :=
  { title := none, context := none, hashtags := some [] }

/-- A concrete partial-update payload without the hashtags key. -/
def payNoTags : Payload :=
  { title := some "t2", context := none, hashtags := none }

/-- A concrete full-update payload without the hashtags key. -/
def payFull : Payload :=
  { title := some "t3", context := some "c3", hashtags := none }

/-- Claim C4: reconciliation is idempotent — running reconcile a second time
with the same requested names from the state the first run produced yields
the same auto-increment counter, the same Hashtag rows (so the second run
creates no rows and names already resolved are reused, not duplicated), and
the same association set. -/
theorem claim_C4_reconcile_idempotent (n0 : Nat) (r0 : List Hashtag)
    (names : List String) :
    reconcileCore (reconcileCore n0 r0 names).1
      (reconcileCore n0 r0 names).2.1 names = reconcileCore n0 r0 names :=
  reconcileAux_idem names n0 r0 []

/-- Claim C9 counterexample: in `src/botanical_garden_root/news/models.py`
the author foreign key is declared `on_delete=models.CASCADE`, so deleting
the owning user deletes the News row — at this concrete input the item does
not survive its creator's deletion, refuting the claim as stated. -/
theorem claim_C9_counterexample :
    deleteUserCascade
        [{ id := 1, title := "t", context := "c", preview := none,
           author := some 5 }] 5 = [] ∧
      ¬ ({ id := 1, title := "t", context := "c", preview := none,
           author := some 5 } : RootNews) ∈
        deleteUserCascade
          [{ id := 1, title := "t", context := "c", preview := none,
             author := some 5 }] 5 := by
  constructor
  · rfl
  · intro h
    simp [deleteUserCascade] at h

/-- Claim C9 (amended): the author reference is nullable, but because the
foreign key is declared with CASCADE deletion, deleting a user removes every
News row whose author is that user; a News row survives the deletion exactly
when its author is not that user (in particular when its author is null). -/
theorem claim_C9_amended_cascade (news : List RootNews) (u : Nat)
    (n : RootNews) (hn : n ∈ news) :
    (n.author = some u → ¬ n ∈ deleteUserCascade news u) ∧
    (¬ n.author = some u → n ∈ deleteUserCascade news u) := by
  constructor
  · intro ha hmem
    have := List.of_mem_filter hmem
    simp [ha] at this
  · intro ha
    apply List.mem_filter.mpr
    refine ⟨hn, ?_⟩
    simp
    exact ha

/-- Witness for the amended C9 theorem at a concrete two-row table: the row
authored by user 5 is cascade-deleted, and the authorless row survives. -/
theorem claim_C9_witness :
    (({ id := 1, title := "t", context := "c", preview := none,
        author := some 5 } : RootNews).author = some 5 →
      ¬ ({ id := 1, title := "t", context := "c", preview := none,
           author := some 5 } : RootNews) ∈
        deleteUserCascade
          [{ id := 1, title := "t", context := "c", preview := none,
             author := some 5 },
           { id := 2, title := "u", context := "d", preview := none,
             author := none }] 5) ∧
    (¬ ({ id := 1, title := "t", context := "c", preview := none,
          author := some 5 } : RootNews).author = some 5 →
      ({ id := 1, title := "t", context := "c", preview := none,
         author := some 5 } : RootNews) ∈
        deleteUserCascade
          [{ id := 1, title := "t", context := "c", preview := none,
             author := some 5 },
           { id := 2, title := "u", context := "d", preview := none,
             author := none }] 5) :=
  claim_C9_amended_cascade
    [{ id := 1, title := "t", context := "c", preview := none,
       author := some 5 },
     { id := 2, title := "u", context := "d", preview := none,
       author := none }] 5
    { id := 1, title := "t", context := "c", preview := none,
      author := some 5 } (by simp)

/-- Claim C5: every News mutation (create, update both partial and full,
delete) fails with 401 for an anonymous caller and 403 for an authenticated
non-manager, leaving the store untouched in both cases, while the read
operations (list, detail) return 200 for any caller. -/
theorem claim_C5_auth_and_reads (s : Store) (p : Payload) (i uid : Nat)
    (it0 : NewsItem) (c : Caller) (hit : itemById s i = some it0) :
    createNews s .anonymous p = (⟨401, .empty⟩, s) ∧
    createNews s (.authenticated uid false) p = (⟨403, .empty⟩, s) ∧
    updateNews s .anonymous i p true = (⟨401, .empty⟩, s) ∧
    updateNews s (.authenticated uid false) i p true = (⟨403, .empty⟩, s) ∧
    updateNews s .anonymous i p false = (⟨401, .empty⟩, s) ∧
    updateNews s (.authenticated uid false) i p false = (⟨403, .empty⟩, s) ∧
    deleteNews s .anonymous i = (⟨401, .empty⟩, s) ∧
    deleteNews s (.authenticated uid false) i = (⟨403, .empty⟩, s) ∧
    (listNews s c).status = 200 ∧
    (retrieveNews s c i).status = 200 := by
  refine ⟨rfl, rfl, rfl, rfl, rfl, rfl, rfl, rfl, rfl, ?_⟩
  unfold retrieveNews
  rw [hit]

/-- Witness for C5 at the concrete sample store. -/
theorem claim_C5_witness :
    createNews sampleStore .anonymous payFull = (⟨401, .empty⟩, sampleStore) ∧
    createNews sampleStore (.authenticated 3 false) payFull
      = (⟨403, .empty⟩, sampleStore) ∧
    updateNews sampleStore .anonymous 1 payFull true
      = (⟨401, .empty⟩, sampleStore) ∧
    updateNews sampleStore (.authenticated 3 false) 1 payFull true
      = (⟨403, .empty⟩, sampleStore) ∧
    updateNews sampleStore .anonymous 1 payFull false
      = (⟨401, .empty⟩, sampleStore) ∧
    updateNews sampleStore (.authenticated 3 false) 1 payFull false
      = (⟨403, .empty⟩, sampleStore) ∧
    deleteNews sampleStore .anonymous 1 = (⟨401, .empty⟩, sampleStore) ∧
    deleteNews sampleStore (.authenticated 3 false) 1
      = (⟨403, .empty⟩, sampleStore) ∧
    (listNews sampleStore .anonymous).status = 200 ∧
    (retrieveNews sampleStore .anonymous 1).status = 200 :=
  claim_C5_auth_and_reads sampleStore payFull 1 3 itemOne .anonymous rfl

/-- Claim C6: for every store and every caller (anonymous included) the list
operation returns 200 and the full News table newest-first: the returned
sequence is a permutation of the stored rows and, in a well-formed store
(rows in creation order), it is strictly decreasing in id. -/
theorem claim_C6_list_all_newest_first (s : Store) (c : Caller)
    (hwf : StoreWF s) :
    (listNews s c).status = 200 ∧
    (listNews s c).body = .newsListBody s.newsList.reverse ∧
    List.Perm s.newsList.reverse s.newsList ∧
    s.newsList.reverse.Pairwise (fun a b => b.id < a.id) := by
  refine ⟨rfl, rfl, List.reverse_perm s.newsList, ?_⟩
  rw [List.pairwise_reverse]
  exact hwf.1

/-- Witness for C6 at the concrete sample store. -/
theorem claim_C6_witness :
    (listNews sampleStore .anonymous).status = 200 ∧
    (listNews sampleStore .anonymous).body
      = .newsListBody sampleStore.newsList.reverse ∧
    List.Perm sampleStore.newsList.reverse sampleStore.newsList ∧
    sampleStore.newsList.reverse.Pairwise (fun a b => b.id < a.id) :=
  claim_C6_list_all_newest_first sampleStore .anonymous (by decide)

end BG

namespace BG

theorem fileAt_eq_none {l : List (String × List Nat)} {p : String}
    (hall : ∀ kv ∈ l, ¬ kv.1 = p) : fileAt l p = none := by
  unfold fileAt
  rw [List.find?_eq_none.mpr]
  · rfl
  · intro kv hkv
    simp
    exact hall kv hkv

theorem fileAt_append_last {l : List (String × List Nat)} {p : String}
    {v : List Nat} (hall : ∀ kv ∈ l, ¬ kv.1 = p) :
    fileAt (l ++ [(p, v)]) p = some v := by
  unfold fileAt
  rw [find?_append_none, @List.find?_cons_of_pos _ (fun kv => kv.1 == p)
    (p, v) [] (by simp)]
  · rfl
  · apply List.find?_eq_none.mpr
    intro kv hkv
    simp
    exact hall kv hkv

/-- Claim C7: uploading a payload the image library cannot decode is
rejected with a 400 validation error naming the image field, and the whole
store — the item's image reference and the stored files included — is
exactly what it was before the attempt. -/
theorem claim_C7_bad_image_rejected (s : Store) (uid i : Nat) (pl : List Nat)
    (dec : List Nat → Bool) (it0 : NewsItem)
    (hit : itemById s i = some it0) (hdec : dec pl = false) :
    uploadImage s (.authenticated uid true) i pl dec
      = (⟨400, .error "image"⟩, s) := by
  have hit2 : s.newsList.find? (fun x => x.id == i) = some it0 := hit
  unfold uploadImage
  simp only [authStatus, hit2, hdec]
  rfl

/-- Witness for C7 at the concrete sample store with a rejecting decoder. -/
theorem claim_C7_witness :
    uploadImage sampleStore (.authenticated 3 true) 1 [9, 9]
        (fun _ => false) = (⟨400, .error "image"⟩, sampleStore) :=
  claim_C7_bad_image_rejected sampleStore 3 1 [9, 9] (fun _ => false)
    itemOne rfl rfl

/-- Claim C8: uploading a payload that decodes as a valid image succeeds
with 200, stores the bytes under the managed path keyed to the News item,
updates the item's image reference to that path, returns the new reference
in the response, and releases any previously stored file kept under a
different path. -/
theorem claim_C8_good_image_stored (s : Store) (uid i : Nat) (pl : List Nat)
    (dec : List Nat → Bool) (it0 : NewsItem)
    (hit : itemById s i = some it0) (hdec : dec pl = true) :
    (uploadImage s (.authenticated uid true) i pl dec).1
      = ⟨200, .imageRef (imagePath i)⟩ ∧
    (∃ it2 : NewsItem,
      itemById (uploadImage s (.authenticated uid true) i pl dec).2 i
          = some it2 ∧ it2.image = some (imagePath i)) ∧
    fileAt (uploadImage s (.authenticated uid true) i pl dec).2.files
      (imagePath i) = some pl ∧
    (∀ old : String, it0.image = some old → ¬ old = imagePath i →
      fileAt (uploadImage s (.authenticated uid true) i pl dec).2.files old
        = none) := by
  have hit2 : s.newsList.find? (fun x => x.id == i) = some it0 := hit
  have hid0 : it0.id = i := by simpa using List.find?_some hit2
  have hred : uploadImage s (.authenticated uid true) i pl dec
      = (⟨200, .imageRef (imagePath i)⟩,
        { s with
          newsList := setItem s.newsList { it0 with image := some (imagePath i) }
          files := (s.files.filter
              (fun kv => !(kv.1 == imagePath i || some kv.1 == it0.image)))
            ++ [(imagePath i, pl)] }) := by
    unfold uploadImage
    simp only [authStatus, hit2, hdec]
    rfl
  rw [hred]
  refine ⟨rfl, ⟨{ it0 with image := some (imagePath i) }, ?_, rfl⟩, ?_, ?_⟩
  · exact setItem_find_self hit2 hid0
  · apply fileAt_append_last
    intro kv hkv
    have := (List.mem_filter.mp hkv).2
    simp at this
    exact this.1
  · intro old hold holdne
    apply fileAt_eq_none
    intro kv hkv
    rcases List.mem_append.mp hkv with hm | hm
    · have := (List.mem_filter.mp hm).2
      simp [hold] at this
      exact this.2
    · simp at hm
      rw [hm]
      intro he
      exact holdne he.symm

/-- Witness for C8 at the concrete sample store with an accepting decoder:
the previously stored file `old.jpg` is released and the new bytes live
under the item's managed path. -/
theorem claim_C8_witness :
    (uploadImage sampleStore (.authenticated 3 true) 1 [9, 9]
        (fun _ => true)).1 = ⟨200, .imageRef (imagePath 1)⟩ ∧
    (∃ it2 : NewsItem,
      itemById (uploadImage sampleStore (.authenticated 3 true) 1 [9, 9]
          (fun _ => true)).2 1 = some it2 ∧
        it2.image = some (imagePath 1)) ∧
    fileAt (uploadImage sampleStore (.authenticated 3 true) 1 [9, 9]
        (fun _ => true)).2.files (imagePath 1) = some [9, 9] ∧
    (∀ old : String, itemOne.image = some old → ¬ old = imagePath 1 →
      fileAt (uploadImage sampleStore (.authenticated 3 true) 1 [9, 9]
          (fun _ => true)).2.files old = none) :=
  claim_C8_good_image_stored sampleStore 3 1 [9, 9] (fun _ => true)
    itemOne rfl rfl

end BG

namespace BG

/-- Claim C1: for every requested hashtag-name sequence supplied in the
hashtags field of a News create or a News update, the item afterwards is
associated, by name, with exactly the set of unique names requested,
regardless of which hashtags were associated before. -/
theorem claim_C1_reconcile_sets_names (s : Store) (uid : Nat) (p : Payload)
    (names : List String) (t ctx : String) (i : Nat) (it0 : NewsItem)
    (hwf : StoreWF s) (hht : p.hashtags = some names)
    (ht : p.title = some t) (hctx : p.context = some ctx)
    (hit : itemById s i = some it0) :
    (∃ itc : NewsItem,
      itemById (createNews s (.authenticated uid true) p).2 s.nextNewsId
          = some itc ∧
        assocNames (createNews s (.authenticated uid true) p).2.hashtagRows
          itc.hashtags = names.toFinset) ∧
    (∃ itu : NewsItem,
      itemById (updateNews s (.authenticated uid true) i p true).2 i
          = some itu ∧
        assocNames
          (updateNews s (.authenticated uid true) i p true).2.hashtagRows
          itu.hashtags = names.toFinset) := by
  have hit2 : s.newsList.find? (fun x => x.id == i) = some it0 := hit
  have hid0 : it0.id = i := by simpa using List.find?_some hit2
  constructor
  · have hredc : createNews s (.authenticated uid true) p
        = (⟨201, .newsItemBody
            ⟨s.nextNewsId, t, ctx, none, some uid,
              (reconcileCore s.nextHashtagId s.hashtagRows names).2.2⟩⟩,
          { s with
            newsList := s.newsList ++
              [⟨s.nextNewsId, t, ctx, none, some uid,
                (reconcileCore s.nextHashtagId s.hashtagRows names).2.2⟩]
            nextNewsId := s.nextNewsId + 1
            hashtagRows := (reconcileCore s.nextHashtagId s.hashtagRows names).2.1
            nextHashtagId := (reconcileCore s.nextHashtagId s.hashtagRows names).1 }) := by
      unfold createNews
      simp only [ht, hctx, hht, Option.getD_some]
    refine ⟨⟨s.nextNewsId, t, ctx, none, some uid,
      (reconcileCore s.nextHashtagId s.hashtagRows names).2.2⟩, ?_, ?_⟩
    · rw [hredc]
      unfold itemById
      apply find?_append_fresh
      · intro x hx
        exact Nat.ne_of_lt (hwf.2.1 x hx)
      · rfl
    · rw [hredc]
      exact reconcileCore_names s.nextHashtagId s.hashtagRows names hwf.2.2
  · have hredu : updateNews s (.authenticated uid true) i p true
        = (⟨200, .newsItemBody
            { applyPayload it0 p with
              hashtags := (reconcileCore s.nextHashtagId s.hashtagRows names).2.2 }⟩,
          { s with
            newsList := setItem s.newsList
              { applyPayload it0 p with
                hashtags := (reconcileCore s.nextHashtagId s.hashtagRows names).2.2 }
            hashtagRows := (reconcileCore s.nextHashtagId s.hashtagRows names).2.1
            nextHashtagId := (reconcileCore s.nextHashtagId s.hashtagRows names).1 }) := by
      unfold updateNews
      simp only [authStatus, hit2, hht]
      rfl
    refine ⟨{ applyPayload it0 p with
      hashtags := (reconcileCore s.nextHashtagId s.hashtagRows names).2.2 },
      ?_, ?_⟩
    · rw [hredu]
      exact setItem_find_self hit2 hid0
    · rw [hredu]
      exact reconcileCore_names s.nextHashtagId s.hashtagRows names hwf.2.2

/-- Witness for C1 at the concrete sample store: the requested names are
one new hashtag and one already stored, and the item previously carried a
different association. -/
theorem claim_C1_witness :
    (∃ itc : NewsItem,
      itemById (createNews sampleStore (.authenticated 3 true) pay1).2
          sampleStore.nextNewsId = some itc ∧
        assocNames
          (createNews sampleStore (.authenticated 3 true) pay1).2.hashtagRows
          itc.hashtags = (["#a", "#old"] : List String).toFinset) ∧
    (∃ itu : NewsItem,
      itemById (updateNews sampleStore (.authenticated 3 true) 1 pay1 true).2 1
          = some itu ∧
        assocNames
          (updateNews sampleStore (.authenticated 3 true) 1 pay1 true).2.hashtagRows
          itu.hashtags = (["#a", "#old"] : List String).toFinset) :=
  claim_C1_reconcile_sets_names sampleStore 3 pay1 ["#a", "#old"] "t" "c" 1
    itemOne (by decide) rfl rfl rfl rfl

/-- Claim C2: a partial update whose payload carries an empty hashtag list
returns 200, clears the item's associations, leaves the Hashtag table
exactly as it was (nothing created, nothing deleted), and leaves every
other News row — hence every other item's associations — untouched. -/
theorem claim_C2_empty_hashtags_clears (s : Store) (uid i : Nat)
    (p : Payload) (it0 : NewsItem) (hp : p.hashtags = some [])
    (hit : itemById s i = some it0) :
    (updateNews s (.authenticated uid true) i p true).1.status = 200 ∧
    (∃ it2 : NewsItem,
      itemById (updateNews s (.authenticated uid true) i p true).2 i
          = some it2 ∧ it2.hashtags = []) ∧
    (updateNews s (.authenticated uid true) i p true).2.hashtagRows
      = s.hashtagRows ∧
    (updateNews s (.authenticated uid true) i p true).2.nextHashtagId
      = s.nextHashtagId ∧
    (∀ j : Nat, ¬ j = i →
      itemById (updateNews s (.authenticated uid true) i p true).2 j
        = itemById s j) := by
  have hit2 : s.newsList.find? (fun x => x.id == i) = some it0 := hit
  have hid0 : it0.id = i := by simpa using List.find?_some hit2
  have hred : updateNews s (.authenticated uid true) i p true
      = (⟨200, .newsItemBody { applyPayload it0 p with hashtags := [] }⟩,
        { s with
          newsList := setItem s.newsList
            { applyPayload it0 p with hashtags := [] } }) := by
    unfold updateNews
    simp only [authStatus, hit2, hp]
    rfl
  rw [hred]
  refine ⟨rfl, ⟨{ applyPayload it0 p with hashtags := [] },
    setItem_find_self hit2 hid0, rfl⟩, rfl, rfl, ?_⟩
  intro j hj
  unfold itemById
  apply setItem_find_other
  intro he
  have he2 : it0.id = j := he
  exact hj (by rw [← he2]; exact hid0)

/-- Witness for C2 at the concrete sample store, whose only item carries
one association before the clearing update. -/
theorem claim_C2_witness :
    (updateNews sampleStore (.authenticated 3 true) 1 payEmptyTags
        true).1.status = 200 ∧
    (∃ it2 : NewsItem,
      itemById (updateNews sampleStore (.authenticated 3 true) 1 payEmptyTags
          true).2 1 = some it2 ∧ it2.hashtags = []) ∧
    (updateNews sampleStore (.authenticated 3 true) 1 payEmptyTags
        true).2.hashtagRows = sampleStore.hashtagRows ∧
    (updateNews sampleStore (.authenticated 3 true) 1 payEmptyTags
        true).2.nextHashtagId = sampleStore.nextHashtagId ∧
    (∀ j : Nat, ¬ j = 1 →
      itemById (updateNews sampleStore (.authenticated 3 true) 1 payEmptyTags
          true).2 j = itemById sampleStore j) :=
  claim_C2_empty_hashtags_clears sampleStore 3 1 payEmptyTags itemOne rfl rfl

/-- Claim C3: a partial update whose payload omits the hashtags key returns
200 and leaves the item's association set, the Hashtag table and the
hashtag auto-increment counter exactly as they were — reconciliation does
not run. -/
theorem claim_C3_omitted_hashtags_frame (s : Store) (uid i : Nat)
    (p : Payload) (it0 : NewsItem) (hp : p.hashtags = none)
    (hit : itemById s i = some it0) :
    (updateNews s (.authenticated uid true) i p true).1.status = 200 ∧
    (∃ it2 : NewsItem,
      itemById (updateNews s (.authenticated uid true) i p true).2 i
          = some it2 ∧ it2.hashtags = it0.hashtags) ∧
    (updateNews s (.authenticated uid true) i p true).2.hashtagRows
      = s.hashtagRows ∧
    (updateNews s (.authenticated uid true) i p true).2.nextHashtagId
      = s.nextHashtagId := by
  have hit2 : s.newsList.find? (fun x => x.id == i) = some it0 := hit
  have hid0 : it0.id = i := by simpa using List.find?_some hit2
  have hred : updateNews s (.authenticated uid true) i p true
      = (⟨200, .newsItemBody (applyPayload it0 p)⟩,
        { s with newsList := setItem s.newsList (applyPayload it0 p) }) := by
    unfold updateNews
    simp only [authStatus, hit2, hp]
    rfl
  rw [hred]
  exact ⟨rfl, ⟨applyPayload it0 p, setItem_find_self hit2 hid0, rfl⟩, rfl, rfl⟩

/-- Witness for C3 at the concrete sample store with a title-only partial
update. -/
theorem claim_C3_witness :
    (updateNews sampleStore (.authenticated 3 true) 1 payNoTags
        true).1.status = 200 ∧
    (∃ it2 : NewsItem,
      itemById (updateNews sampleStore (.authenticated 3 true) 1 payNoTags
          true).2 1 = some it2 ∧ it2.hashtags = itemOne.hashtags) ∧
    (updateNews sampleStore (.authenticated 3 true) 1 payNoTags
        true).2.hashtagRows = sampleStore.hashtagRows ∧
    (updateNews sampleStore (.authenticated 3 true) 1 payNoTags
        true).2.nextHashtagId = sampleStore.nextHashtagId :=
  claim_C3_omitted_hashtags_frame sampleStore 3 1 payNoTags itemOne rfl rfl

/-- Claim C10: a full update by a manager returns 200 and never changes the
item's owning user — afterwards the row still refers to the same user as
before, not to the updating caller and not to null. -/
theorem claim_C10_full_update_keeps_user (s : Store) (uid i : Nat)
    (p : Payload) (t ctx : String) (it0 : NewsItem)
    (ht : p.title = some t) (hctx : p.context = some ctx)
    (hit : itemById s i = some it0) :
    (updateNews s (.authenticated uid true) i p false).1.status = 200 ∧
    (∃ it2 : NewsItem,
      itemById (updateNews s (.authenticated uid true) i p false).2 i
          = some it2 ∧ it2.user = it0.user) := by
  have hit2 : s.newsList.find? (fun x => x.id == i) = some it0 := hit
  have hid0 : it0.id = i := by simpa using List.find?_some hit2
  cases hph : p.hashtags with
  | none =>
    have hred : updateNews s (.authenticated uid true) i p false
        = (⟨200, .newsItemBody (applyPayload it0 p)⟩,
          { s with newsList := setItem s.newsList (applyPayload it0 p) }) := by
      unfold updateNews
      simp only [authStatus, hit2, ht, hctx, hph, Option.isNone_some]
      rfl
    rw [hred]
    exact ⟨rfl, ⟨applyPayload it0 p, setItem_find_self hit2 hid0, rfl⟩⟩
  | some names =>
    have hred : updateNews s (.authenticated uid true) i p false
        = (⟨200, .newsItemBody
            { applyPayload it0 p with
              hashtags := (reconcileCore s.nextHashtagId s.hashtagRows names).2.2 }⟩,
          { s with
            newsList := setItem s.newsList
              { applyPayload it0 p with
                hashtags := (reconcileCore s.nextHashtagId s.hashtagRows names).2.2 }
            hashtagRows := (reconcileCore s.nextHashtagId s.hashtagRows names).2.1
            nextHashtagId := (reconcileCore s.nextHashtagId s.hashtagRows names).1 }) := by
      unfold updateNews
      simp only [authStatus, hit2, ht, hctx, hph, Option.isNone_some]
      rfl
    rw [hred]
    exact ⟨rfl, ⟨{ applyPayload it0 p with
      hashtags := (reconcileCore s.nextHashtagId s.hashtagRows names).2.2 },
      setItem_find_self hit2 hid0, rfl⟩⟩

/-- Witness for C10 at the concrete sample store with a full update payload
carrying new title and body. -/
theorem claim_C10_witness :
    (updateNews sampleStore (.authenticated 3 true) 1 payFull
        false).1.status = 200 ∧
    (∃ it2 : NewsItem,
      itemById (updateNews sampleStore (.authenticated 3 true) 1 payFull
          false).2 1 = some it2 ∧ it2.user = itemOne.user) :=
  claim_C10_full_update_keeps_user sampleStore 3 1 payFull "t3" "c3" itemOne
    rfl rfl rfl

end BG
